import Mathlib

/-!
# Cooperative cancellation and the live-thread counter of `main.cpp`

A shallow embedding of `main.cpp`; line numbers refer to that file.

* `SharedResource` (lines 11-29) holds a `std::promise<void>` and the
  `std::future<void>` obtained from it.  Both refer to one shared state, whose
  only observable content is whether a value has been stored.
* `ThreadCountProxy` (lines 31-96) is the singleton counter.  `Increment` and
  `Decrement` take `mtx` for their whole body, so each call is one atomic
  transition of the counter; the calls they make on other objects
  (`Debug::out`, `cv_thread_count.notify_one`) are returned as a list.
* `ThreadCount` (lines 98-113) is the scoped guard.
* `A`, `B`, `C`, `D` (lines 115-264) are the worker bodies, `Controller`
  (lines 266-287) the shutdown controller.

The C++ type `int` is 32 bits wide.  An `int` variable is embedded as an `Int`
that is reduced by `toInt32` after every `++` and `--`, so that it wraps around
from 2147483647 to -2147483648 and back, as the counters of the compiled
program do.
-/

namespace ThreadSync

/-! ## The type `int` -/

/-- The value a 32-bit `int` holds when the arithmetic result is `x`: the
representative of `x` modulo `2^32` between `-2^31` and `2^31 - 1`.  The C++
standard leaves signed overflow undefined; the compiled program wraps around,
and that is what is embedded. -/
def toInt32 (x : Int) : Int := (x + 2147483648) % 4294967296 - 2147483648

/-! ## ThreadCountProxy -/

/-- A call that `Increment` or `Decrement` makes on another object while it
holds `mtx`: `Debug::out("TC:%d \n", n)` or `cv_thread_count.notify_one()`. -/
inductive Call where
  | out (n : Int)
  | notify_one
  deriving DecidableEq, Repr

/-- The shared data of `ThreadCountProxy` that `Increment` and `Decrement`
read and write (line 91). -/
structure ThreadCountProxy where
  count : Int
  deriving DecidableEq, Repr

namespace ThreadCountProxy

/-- The constructor (lines 74-80) as run once by `privGetInstance`:
`count(0)`. -/
def privGetInstance : ThreadCountProxy := { count := 0 }

/-- The function `Increment` (lines 42-48): `++instance.count; Debug::out(...)`. -/
def Increment (self : ThreadCountProxy) : ThreadCountProxy × List Call :=
  let count := toInt32 (self.count + 1)
  ({ count := count }, [Call.out count])

/-- The function `Decrement` (lines 51-62): `--instance.count; Debug::out(...)`, then
`notify_one()` when the new count is zero. -/
def Decrement (self : ThreadCountProxy) : ThreadCountProxy × List Call :=
  let count := toInt32 (self.count - 1)
  ({ count := count },
    Call.out count :: (if count = 0 then [Call.notify_one] else []))

end ThreadCountProxy

/-- One call on the registry. -/
inductive Op where
  | increment
  | decrement
  deriving DecidableEq, Repr

/-- The registry after one call. -/
def applyOp (tc : ThreadCountProxy) : Op → ThreadCountProxy
  | Op.increment => (ThreadCountProxy.Increment tc).1
  | Op.decrement => (ThreadCountProxy.Decrement tc).1

/-- The registry after a sequence of calls, each run atomically under `mtx`. -/
def runOps (tc : ThreadCountProxy) (ops : List Op) : ThreadCountProxy :=
  ops.foldl applyOp tc

/-- Starting with `live` guards alive: every prefix of the call sequence has
at least as many increments as decrements, as when each `Decrement` is the
destructor of a guard whose constructor ran before, and never more than
2147483647 guards are alive at once. -/
def guarded : Nat → List Op → Bool
  | _, [] => true
  | live, Op.increment :: ops => decide (live < 2147483647) && guarded (live + 1) ops
  | 0, Op.decrement :: _ => false
  | live + 1, Op.decrement :: ops => guarded live ops

/-! ## SharedResource -/

/-- The result of `std::future::wait_for`. -/
inductive future_status where
  | ready
  | timeout
  | deferred
  deriving DecidableEq, Repr

/-- The error codes of `std::future_error`. -/
inductive future_errc where
  | broken_promise
  | future_already_retrieved
  | promise_already_satisfied
  | no_state
  deriving DecidableEq, Repr

/-- The state shared by `tPromise` and `tFuture` (lines 27-28): whether a
value has been stored in it. -/
structure SharedResource where
  ready : Bool
  deriving DecidableEq, Repr

namespace SharedResource

/-- The constructor (lines 21-25): a fresh promise and its future, no value
stored. -/
def init : SharedResource := { ready := false }

/-- The call `tPromise.set_value()` (line 280): stores the value, or throws
`std::future_error` with `promise_already_satisfied` when one is already
stored, leaving the shared state as it was. -/
def set_value (sr : SharedResource) : SharedResource × Option future_errc :=
  if sr.ready then (sr, some future_errc.promise_already_satisfied)
  else ({ ready := true }, none)

/-- The call `tFuture.wait_for(d)` (lines 134, 167, 210, 252) taken as one
step: `ready` when the value is stored, `timeout` when it is not stored by the
end of the wait.  The shared state is only read. -/
def wait_for (sr : SharedResource) : SharedResource × future_status :=
  (sr, if sr.ready then future_status.ready else future_status.timeout)

end SharedResource

/-- A call made on the shared resource by some thread. -/
inductive TokenCall where
  | wait_for
  | set_value
  deriving DecidableEq, Repr

/-- The shared resource after a sequence of calls, with the results of the
`wait_for` calls in order. -/
def tokenRun (sr : SharedResource) : List TokenCall → SharedResource × List future_status
  | [] => (sr, [])
  | TokenCall.wait_for :: calls =>
    let r := tokenRun (SharedResource.wait_for sr).1 calls
    (r.1, (SharedResource.wait_for sr).2 :: r.2)
  | TokenCall.set_value :: calls => tokenRun (SharedResource.set_value sr).1 calls

/-! ## ThreadCount -/

namespace ThreadCount

/-- The constructor `ThreadCount()` (lines 101-105). -/
def ctor (tc : ThreadCountProxy) : ThreadCountProxy × List Call :=
  ThreadCountProxy.Increment tc

/-- The destructor `~ThreadCount()` (lines 107-111). -/
def dtor (tc : ThreadCountProxy) : ThreadCountProxy × List Call :=
  ThreadCountProxy.Decrement tc

end ThreadCount

/-! ## Worker bodies -/

/-- What one pass of a worker loop gets back from its `wait_for` call: a
status, or an exception.  The bodies contain no `throw` and no handler; an
exception can only come out of a call they make, and it then leaves the loop
and the body. -/
inductive Response where
  | status (st : future_status)
  | thrown
  deriving DecidableEq, Repr

/-- How far a worker loop got on the responses it was given. -/
inductive Exit where
  | pending
  | broke
  | threw
  | undefined
  deriving DecidableEq, Repr

/-- How a loop that does the same work forever must end on given responses,
read off the responses alone: it is still running when none of them is `ready`
or an exception, and otherwise it ends at the first that is, by `break` on
`ready` and by the exception otherwise. -/
def exitOf : List Response → Exit
  | [] => Exit.pending
  | Response.thrown :: _ => Exit.threw
  | Response.status future_status.ready :: _ => Exit.broke
  | Response.status _ :: rs => exitOf rs

/-- The values a loop passed to `Debug::out`, the number of `wait_for` calls
it made, and how it ended. -/
structure LoopResult (ω : Type) where
  out : List ω
  polls : Nat
  exit : Exit
  deriving Repr

/-- The loop shared by the four bodies (lines 128-141, 162-174, 202-215,
239-259): `while (true)`, do the work of the pass, call `wait_for`, `break`
when the status is `ready`.  `work` returns `none` when the pass has undefined
behaviour.  When the responses run out the loop is still running
(`Exit.pending`). -/
def pollLoop {σ ω : Type} (work : σ → Option (σ × ω)) :
    σ → List Response → LoopResult ω
  | _, [] => { out := [], polls := 0, exit := Exit.pending }
  | s, r :: rs =>
    match work s with
    | none => { out := [], polls := 0, exit := Exit.undefined }
    | some (s1, o) =>
      match r with
      | Response.thrown => { out := [o], polls := 1, exit := Exit.threw }
      | Response.status future_status.ready =>
        { out := [o], polls := 1, exit := Exit.broke }
      | Response.status _ =>
        let res := pollLoop work s1 rs
        { out := o :: res.out, polls := res.polls + 1, exit := res.exit }

/-- What a body call leaves behind: the registry, the calls made by the guard,
and the result of the loop. -/
structure BodyResult (ω : Type) where
  tc : ThreadCountProxy
  calls : List Call
  loop : LoopResult ω
  deriving Repr

/-- A body `operator()(SharedResource&)`: `ThreadCount TC;` then the loop.
`TC` is a local object of the body, so `~ThreadCount()` runs when its scope is
left, whether by the `break` out of the loop or by an exception that is
propagated out of the body; while the loop is running `TC` is alive. -/
def runBody {σ ω : Type} (work : σ → Option (σ × ω)) (s0 : σ)
    (rs : List Response) (tc : ThreadCountProxy) : BodyResult ω :=
  let c := ThreadCount.ctor tc
  let res := pollLoop work s0 rs
  match res.exit with
  | Exit.broke | Exit.threw =>
    let d := ThreadCount.dtor c.1
    { tc := d.1, calls := c.2 ++ d.2, loop := res }
  | Exit.pending | Exit.undefined => { tc := c.1, calls := c.2, loop := res }

namespace A

/-- One pass of the loop of `A` (lines 130-131): `Debug::out("%d\n", count);
count++`. -/
def work (count : Int) : Option (Int × Int) := some (toInt32 (count + 1), count)

/-- The body `A::operator()` (lines 121-143), with `int count = 0`. -/
def operator_call (rs : List Response) (tc : ThreadCountProxy) : BodyResult Int :=
  runBody work 0 rs tc

end A

namespace B

/-- One pass of the loop of `B` (lines 164-165): `Debug::out("0x%x\n", count);
count--`. -/
def work (count : Int) : Option (Int × Int) := some (toInt32 (count - 1), count)

/-- The body `B::operator()` (lines 155-175), with `int count = 0x10000`. -/
def operator_call (rs : List Response) (tc : ThreadCountProxy) : BodyResult Int :=
  runBody work 0x10000 rs tc

end B

namespace C

/-- The array `pFruit` (lines 193-199). -/
def pFruit : List String := ["apple", "orange", "banana", "lemon"]

/-- One pass of the loop of `C` (lines 204-205): `int i = count++ % 4;
Debug::out("%s\n", pFruit[i])`.  The C++ `%` truncates toward zero; an index
outside the array is undefined behaviour. -/
def work (count : Int) : Option (Int × String) :=
  let i := Int.tmod count 4
  if 0 ≤ i then (pFruit.get? i.toNat).map (fun fruit => (toInt32 (count + 1), fruit))
  else none

/-- The body `C::operator()` (lines 187-216), with `int count = 0`. -/
def operator_call (rs : List Response) (tc : ThreadCountProxy) : BodyResult String :=
  runBody work 0 rs tc

end C

namespace D

/-- The literal `pStoryOriginal` (line 232). -/
def pStoryOriginal : String := "<0><1><2><3><4><5><6><7><8>"

/-- The length `strlen(pStoryOriginal)` (line 233). -/
def len : Nat := pStoryOriginal.length

/-- The terminating zero byte. -/
def nul : Char := Char.ofNat 0

/-- The locals of `D::operator()` that the loop changes: the buffer of
`len + 1` bytes behind `pString`, and `tmpLen`. -/
structure State where
  pString : List Char
  tmpLen : Int
  deriving DecidableEq, Repr

/-- The buffer after `strcpy_s(pString, len + 1, pStoryOriginal)` (lines 235,
244). -/
def strcpy_s : List Char := pStoryOriginal.toList ++ [nul]

/-- The locals when the loop is entered (lines 232-237). -/
def start : State := { pString := strcpy_s, tmpLen := (len : Int) - 1 }

/-- The write `pString[i] = c`; outside the buffer it is undefined
behaviour. -/
def store (buf : List Char) (i : Int) (c : Char) : Option (List Char) :=
  if 0 ≤ i ∧ i < (buf.length : Int) then some (buf.set i.toNat c) else none

/-- The text `Debug::out("%s\n", pString)` prints: the bytes before the first
zero byte. -/
def cstr (buf : List Char) : String := String.mk (buf.takeWhile (fun c => c != nul))

/-- What one pass of the loop of `D` did: the text printed, whether the reset
branch was taken, and the indices of its three writes in order. -/
structure Pass where
  text : String
  reset : Bool
  writes : List Int
  deriving DecidableEq, Repr

/-- One pass of the loop of `D` (lines 241-250). -/
def work (s : State) : Option (State × Pass) :=
  let s1 : State := if s.tmpLen ≤ 0 then { pString := strcpy_s, tmpLen := (len : Int) - 1 } else s
  match store s1.pString s1.tmpLen nul with
  | none => none
  | some b1 =>
    match store b1 (s1.tmpLen - 1) nul with
    | none => none
    | some b2 =>
      match store b2 (s1.tmpLen - 2) nul with
      | none => none
      | some b3 =>
        some ({ pString := b3, tmpLen := s1.tmpLen - 3 },
          { text := cstr s1.pString, reset := decide (s.tmpLen ≤ 0),
            writes := [s1.tmpLen, s1.tmpLen - 1, s1.tmpLen - 2] })

/-- The body `D::operator()` (lines 226-262); `delete pString` after the loop
does not touch the registry. -/
def operator_call (rs : List Response) (tc : ThreadCountProxy) : BodyResult Pass :=
  runBody work start rs tc

end D

/-! ## The threads of `main` as a step function -/

/-- Where a worker thread is in its body: before `ThreadCount TC;`, inside the
loop, past the `break` with `TC` still alive, or returned. -/
inductive WorkerPc where
  | notStarted
  | running
  | leaving
  | exited
  deriving DecidableEq, Repr

/-- Where the controller is in `Controller::operator()` (lines 275-284):
before `set_value()`, between `set_value()` and the wait, inside
`cv_thread_count.wait`, woken by a notification, or left by the exception of
`set_value()`. -/
inductive CtlPc where
  | idle
  | signalled
  | blocked
  | released
  | failed
  deriving DecidableEq, Repr

/-- The shared objects and the position of every thread. -/
structure Sys where
  sr : SharedResource
  tc : ThreadCountProxy
  ctl : CtlPc
  workers : List WorkerPc
  deriving DecidableEq, Repr

/-- One atomic action of one thread. -/
inductive Event where
  | start (i : Nat)
  | poll (i : Nat)
  | leave (i : Nat)
  | signal
  | wait
  deriving DecidableEq, Repr

/-- The effect of the calls of `Increment` or `Decrement` on the controller:
`notify_one()` wakes it when it is blocked in `cv_thread_count.wait` and is
lost otherwise; notifications are the only wake-ups. -/
def deliver (ctl : CtlPc) : List Call → CtlPc
  | [] => ctl
  | Call.notify_one :: calls =>
    deliver (if ctl = CtlPc.blocked then CtlPc.released else ctl) calls
  | Call.out _ :: calls => deliver ctl calls

namespace Sys

/-- The state `main` sets up (lines 295-320): `n` worker threads spawned, none
of which has run yet, and the controller not started. -/
def init (n : Nat) : Sys :=
  { sr := SharedResource.init, tc := ThreadCountProxy.privGetInstance,
    ctl := CtlPc.idle, workers := List.replicate n WorkerPc.notStarted }

/-- One step.  An event that its thread cannot take in the state leaves the
state as it is.

* `start i`: worker `i` constructs its guard (`ThreadCount TC;`).
* `poll i`: worker `i` calls `wait_for` and breaks when the status is `ready`.
* `leave i`: worker `i` leaves the scope of `TC` (`~ThreadCount()`).
* `signal`: the controller calls `sr.tPromise.set_value()` (line 280).
* `wait`: the controller calls `WaitUntilThreadsDone` (lines 63-68) and blocks
  in `cv_thread_count.wait(lock_ct)`, which has no predicate. -/
def step (s : Sys) : Event → Sys
  | Event.start i =>
    if s.workers.get? i = some WorkerPc.notStarted then
      let c := ThreadCount.ctor s.tc
      { s with tc := c.1, ctl := deliver s.ctl c.2,
               workers := s.workers.set i WorkerPc.running }
    else s
  | Event.poll i =>
    if s.workers.get? i = some WorkerPc.running then
      let p := SharedResource.wait_for s.sr
      if p.2 = future_status.ready then
        { s with sr := p.1, workers := s.workers.set i WorkerPc.leaving }
      else { s with sr := p.1 }
    else s
  | Event.leave i =>
    if s.workers.get? i = some WorkerPc.leaving then
      let d := ThreadCount.dtor s.tc
      { s with tc := d.1, ctl := deliver s.ctl d.2,
               workers := s.workers.set i WorkerPc.exited }
    else s
  | Event.signal =>
    if s.ctl = CtlPc.idle then
      let p := SharedResource.set_value s.sr
      match p.2 with
      | none => { s with sr := p.1, ctl := CtlPc.signalled }
      | some _ => { s with sr := p.1, ctl := CtlPc.failed }
    else s
  | Event.wait =>
    if s.ctl = CtlPc.signalled then { s with ctl := CtlPc.blocked } else s

/-- The state after a schedule, a sequence of events. -/
def run (s : Sys) (evs : List Event) : Sys := evs.foldl step s

end Sys

/-- The worker has registered and not yet deregistered. -/
def WorkerPc.live : WorkerPc → Bool
  | WorkerPc.running => true
  | WorkerPc.leaving => true
  | _ => false

/-- The number of workers that have registered and not yet deregistered. -/
def liveCount (ws : List WorkerPc) : Nat := ws.countP WorkerPc.live

/-! ## Invariants used in the proofs -/

/-- The locals of `D` when pass `j` starts. -/
def D_entry (j : Nat) (s : D.State) : Prop :=
  s.pString.length = 28 ∧
    s.tmpLen = if j = 0 then 26 else 23 - 3 * (((j - 1) % 9 : Nat) : Int)

/-- The write indices and the reset flag of pass `j` of the loop of `D`. -/
def D_pass (j : Nat) : List Int × Bool :=
  ([26 - 3 * ((j % 9 : Nat) : Int), 25 - 3 * ((j % 9 : Nat) : Int),
      24 - 3 * ((j % 9 : Nat) : Int)],
    decide (0 < j ∧ j % 9 = 0))

/-- The count is the number of workers that hold a live guard, as an `int`. -/
def CountInv (s : Sys) : Prop := s.tc.count = toInt32 (liveCount s.workers : Int)

theorem toInt32_of_range (x : Int) (hlo : -2147483648 ≤ x) (hhi : x ≤ 2147483647) :
    toInt32 x = x := by
  unfold toInt32
  omega

theorem toInt32_range (x : Int) : -2147483648 ≤ toInt32 x ∧ toInt32 x ≤ 2147483647 := by
  unfold toInt32
  omega

theorem toInt32_add (x k : Int) : toInt32 (toInt32 x + k) = toInt32 (x + k) := by
  unfold toInt32
  omega

theorem toInt32_succ_pred (c : Int) (hlo : -2147483648 ≤ c) (hhi : c ≤ 2147483647) :
    toInt32 (toInt32 (c + 1) - 1) = c := by
  unfold toInt32
  omega

theorem toInt32_succ (c : Int) (hlo : -2147483648 ≤ c) (hhi : c ≤ 2147483647) :
    toInt32 (c + 1) = if c = 2147483647 then -2147483648 else c + 1 := by
  unfold toInt32
  split <;> omega

/-! ## Registry lemmas -/

theorem runOps_count (ops : List Op) (tc : ThreadCountProxy) :
    toInt32 (runOps tc ops).count
      = toInt32 (tc.count + (ops.count Op.increment : Int) - (ops.count Op.decrement : Int)) := by
  induction ops generalizing tc with
  | nil => simp [runOps]
  | cons op ops ih =>
    have h := ih (applyOp tc op)
    simp only [runOps, List.foldl_cons] at h ⊢
    rw [h]
    cases op
    · simp only [applyOp, ThreadCountProxy.Increment, List.count_cons, beq_self_eq_true,
        if_true, Nat.cast_add, Nat.cast_one, reduceCtorEq, beq_iff_eq, if_false,
        Nat.add_zero]
      unfold toInt32
      omega
    · simp only [applyOp, ThreadCountProxy.Decrement, List.count_cons, beq_self_eq_true,
        if_true, Nat.cast_add, Nat.cast_one, reduceCtorEq, beq_iff_eq, if_false,
        Nat.add_zero]
      unfold toInt32
      omega

theorem runOps_count_range (ops : List Op) (tc : ThreadCountProxy)
    (hlo : -2147483648 ≤ tc.count) (hhi : tc.count ≤ 2147483647) :
    -2147483648 ≤ (runOps tc ops).count ∧ (runOps tc ops).count ≤ 2147483647 := by
  induction ops generalizing tc with
  | nil => exact ⟨hlo, hhi⟩
  | cons op ops ih =>
    cases op
    · exact ih (applyOp tc Op.increment) (toInt32_range _).1 (toInt32_range _).2
    · exact ih (applyOp tc Op.decrement) (toInt32_range _).1 (toInt32_range _).2

/-- From the fresh registry the count is the number of increments minus the
number of decrements, as an `int`. -/
theorem runOps_init_count (ops : List Op) :
    (runOps ThreadCountProxy.privGetInstance ops).count
      = toInt32 ((ops.count Op.increment : Int) - (ops.count Op.decrement : Int)) := by
  have hr := runOps_count_range ops ThreadCountProxy.privGetInstance (by decide) (by decide)
  have h := runOps_count ops ThreadCountProxy.privGetInstance
  rw [toInt32_of_range _ hr.1 hr.2] at h
  rw [h]
  simp [ThreadCountProxy.privGetInstance]

theorem count_replicate_increment (n : Nat) :
    (List.replicate n Op.increment).count Op.increment = n ∧
      (List.replicate n Op.increment).count Op.decrement = 0 := by
  simp [List.count_replicate]

theorem guarded_count_nonneg (ops : List Op) (live : Nat) (tc : ThreadCountProxy)
    (hc : tc.count = live) (hl : live ≤ 2147483647) (h : guarded live ops = true) :
    0 ≤ (runOps tc ops).count := by
  induction ops generalizing live tc with
  | nil => simp [runOps]; omega
  | cons op ops ih =>
    cases op with
    | increment =>
      simp only [guarded, Bool.and_eq_true, decide_eq_true_eq] at h
      refine ih (live + 1) (applyOp tc Op.increment) ?_ (by omega) h.2
      simp only [applyOp, ThreadCountProxy.Increment, hc]
      rw [toInt32_of_range _ (by omega) (by omega)]
      simp
    | decrement =>
      cases live with
      | zero => simp [guarded] at h
      | succ n =>
        simp only [guarded] at h
        refine ih n (applyOp tc Op.decrement) ?_ (by omega) h
        simp only [applyOp, ThreadCountProxy.Decrement, hc]
        rw [toInt32_of_range _ (by push_cast; omega) (by push_cast; omega)]
        simp

theorem guarded_take (ops : List Op) (live n : Nat) (h : guarded live ops = true) :
    guarded live (ops.take n) = true := by
  induction ops generalizing live n with
  | nil => simp [guarded]
  | cons op ops ih =>
    cases n with
    | zero => simp [guarded]
    | succ n =>
      cases op with
      | increment =>
        simp only [guarded, List.take_succ_cons, Bool.and_eq_true, decide_eq_true_eq] at h ⊢
        exact ⟨h.1, ih (live + 1) n h.2⟩
      | decrement =>
        cases live with
        | zero => simp [guarded] at h
        | succ k =>
          simp only [guarded, List.take_succ_cons] at h ⊢
          exact ih k n h

/-! ## Claims about the registry -/

/-- C2 (as stated, refuted): after 2147483648 calls of `Increment` on the
fresh registry the count is -2147483648, which is not the number of
`Increment` calls minus the number of `Decrement` calls. -/
theorem C2_count_wraps_after_2147483648_increments :
    (runOps ThreadCountProxy.privGetInstance
        (List.replicate 2147483648 Op.increment)).count = -2147483648 ∧
      (runOps ThreadCountProxy.privGetInstance
        (List.replicate 2147483648 Op.increment)).count
        ≠ (((List.replicate 2147483648 Op.increment).count Op.increment : Nat) : Int)
          - (((List.replicate 2147483648 Op.increment).count Op.decrement : Nat) : Int) := by
  obtain ⟨hI, hD⟩ := count_replicate_increment 2147483648
  rw [runOps_init_count, hI, hD]
  constructor
  · unfold toInt32
    omega
  · unfold toInt32
    omega

/-- C2 (amended): starting from the freshly constructed registry (count 0),
after every finite sequence of `Increment` and `Decrement` calls for which the
number of `Increment` calls minus the number of `Decrement` calls lies in the
range of `int`, from -2147483648 to 2147483647, the count equals that
difference. -/
theorem C2_count_is_increments_minus_decrements (ops : List Op)
    (hlo : -2147483648 ≤ (ops.count Op.increment : Int) - (ops.count Op.decrement : Int))
    (hhi : (ops.count Op.increment : Int) - (ops.count Op.decrement : Int) ≤ 2147483647) :
    (runOps ThreadCountProxy.privGetInstance ops).count
      = (ops.count Op.increment : Int) - (ops.count Op.decrement : Int) := by
  rw [runOps_init_count, toInt32_of_range _ hlo hhi]

/-- C2 at three increments interleaved with two decrements. -/
theorem C2_count_is_increments_minus_decrements_witness :
    (-2147483648 ≤ (([Op.increment, Op.increment, Op.decrement, Op.increment,
            Op.decrement].count Op.increment : Nat) : Int)
        - (([Op.increment, Op.increment, Op.decrement, Op.increment,
            Op.decrement].count Op.decrement : Nat) : Int)) ∧
    ((([Op.increment, Op.increment, Op.decrement, Op.increment,
            Op.decrement].count Op.increment : Nat) : Int)
        - (([Op.increment, Op.increment, Op.decrement, Op.increment,
            Op.decrement].count Op.decrement : Nat) : Int) ≤ 2147483647) ∧
    (runOps ThreadCountProxy.privGetInstance
        [Op.increment, Op.increment, Op.decrement, Op.increment, Op.decrement]).count
      = (([Op.increment, Op.increment, Op.decrement, Op.increment,
            Op.decrement].count Op.increment : Nat) : Int)
        - (([Op.increment, Op.increment, Op.decrement, Op.increment,
            Op.decrement].count Op.decrement : Nat) : Int) :=
  ⟨by decide, by decide,
    C2_count_is_increments_minus_decrements
      [Op.increment, Op.increment, Op.decrement, Op.increment, Op.decrement]
      (by decide) (by decide)⟩

/-- C3 (as stated, refuted): `Decrement` on the registry with count 0 returns
normally with the state whose count is -1, having issued only the `Debug::out`
call, and the sequence consisting of one `Decrement` leaves the count
negative. -/
theorem C3_decrement_at_zero_yields_minus_one :
    ThreadCountProxy.Decrement { count := 0 } = ({ count := -1 }, [Call.out (-1)]) ∧
      (runOps ThreadCountProxy.privGetInstance [Op.decrement]).count < 0 := by
  decide

/-- C3 (amended): `Decrement` has no invariant check, from every state with
count 0 it produces the state with count -1; and over every sequence of calls
in which no prefix has more decrements than increments, nor more than
2147483647 increments more than decrements, the count is never negative, at
any prefix. -/
theorem C3_count_nonneg_when_guarded (ops : List Op)
    (h : guarded 0 ops = true) :
    (∀ tc : ThreadCountProxy, tc.count = 0 →
        (ThreadCountProxy.Decrement tc).1.count = -1) ∧
      ∀ n, 0 ≤ (runOps ThreadCountProxy.privGetInstance (ops.take n)).count := by
  refine ⟨fun tc h0 => ?_, fun n => ?_⟩
  · simp only [ThreadCountProxy.Decrement, h0]
    decide
  · exact guarded_count_nonneg (ops.take n) 0 ThreadCountProxy.privGetInstance
      (by simp [ThreadCountProxy.privGetInstance]) (by decide) (guarded_take ops 0 n h)

/-- C3 witness: two guards constructed and destroyed in nested order. -/
theorem C3_count_nonneg_when_guarded_witness :
    guarded 0 [Op.increment, Op.increment, Op.decrement, Op.decrement] = true ∧
      ((∀ tc : ThreadCountProxy, tc.count = 0 →
          (ThreadCountProxy.Decrement tc).1.count = -1) ∧
        ∀ n, 0 ≤ (runOps ThreadCountProxy.privGetInstance
          ([Op.increment, Op.increment, Op.decrement, Op.decrement].take n)).count) :=
  ⟨by decide, C3_count_nonneg_when_guarded _ (by decide)⟩

/-! ## The cancellation signal -/

theorem tokenRun_ready (calls : List TokenCall) (sr : SharedResource)
    (h : sr.ready = true) :
    tokenRun sr calls
      = (sr, List.replicate (calls.count TokenCall.wait_for) future_status.ready) := by
  induction calls with
  | nil => simp [tokenRun]
  | cons call calls ih =>
    cases call with
    | wait_for =>
      simp [tokenRun, SharedResource.wait_for, ih, h, List.replicate_succ]
    | set_value =>
      simp [tokenRun, SharedResource.set_value, ih, h]

theorem tokenRun_unset (n : Nat) (calls : List TokenCall) :
    tokenRun SharedResource.init (List.replicate n TokenCall.wait_for ++ calls)
      = ((tokenRun SharedResource.init calls).1,
          List.replicate n future_status.timeout
            ++ (tokenRun SharedResource.init calls).2) := by
  induction n with
  | zero => simp
  | succ n ih =>
    have hw : (SharedResource.wait_for SharedResource.init)
        = (SharedResource.init, future_status.timeout) := rfl
    have hc : tokenRun SharedResource.init
          (TokenCall.wait_for :: (List.replicate n TokenCall.wait_for ++ calls))
        = ((tokenRun (SharedResource.wait_for SharedResource.init).1
              (List.replicate n TokenCall.wait_for ++ calls)).1,
            (SharedResource.wait_for SharedResource.init).2
              :: (tokenRun (SharedResource.wait_for SharedResource.init).1
                    (List.replicate n TokenCall.wait_for ++ calls)).2) := rfl
    rw [List.replicate_succ, List.cons_append, hc, hw, ih]
    rfl

/-- C4: a `wait_for` never changes the shared state; every `wait_for` made
before `set_value()` reports `timeout`, and after `set_value()` every
`wait_for` reports `ready`, however many are made and whatever other calls
are mixed in. -/
theorem C4_signal_is_level_triggered :
    (∀ sr : SharedResource, (SharedResource.wait_for sr).1 = sr) ∧
      (∀ n : Nat,
        tokenRun SharedResource.init (List.replicate n TokenCall.wait_for)
          = (SharedResource.init, List.replicate n future_status.timeout)) ∧
      (∀ (n : Nat) (calls : List TokenCall),
        (tokenRun SharedResource.init
            (List.replicate n TokenCall.wait_for ++ TokenCall.set_value :: calls)).2
          = List.replicate n future_status.timeout
              ++ List.replicate (calls.count TokenCall.wait_for) future_status.ready) := by
  refine ⟨fun _ => rfl, fun n => ?_, fun n calls => ?_⟩
  · have h := tokenRun_unset n []
    simpa [tokenRun] using h
  · rw [tokenRun_unset]
    simp only [tokenRun]
    rw [tokenRun_ready calls _ (by decide)]

/-! ## Notifications -/

/-- C7: `Decrement` calls `notify_one()` if and only if the count it leaves is
zero, and then once; `Increment` never calls it. -/
theorem C7_notify_iff_count_reaches_zero (tc : ThreadCountProxy) :
    (Call.notify_one ∈ (ThreadCountProxy.Decrement tc).2
        ↔ (ThreadCountProxy.Decrement tc).1.count = 0) ∧
      (ThreadCountProxy.Decrement tc).2.count Call.notify_one ≤ 1 ∧
      Call.notify_one ∉ (ThreadCountProxy.Increment tc).2 := by
  refine ⟨?_, ?_, ?_⟩
  · by_cases h : toInt32 (tc.count - 1) = 0 <;> simp [ThreadCountProxy.Decrement, h]
  · by_cases h : toInt32 (tc.count - 1) = 0 <;>
      simp [ThreadCountProxy.Decrement, h, List.count_cons]
  · simp [ThreadCountProxy.Increment]

/-! ## Worker loops -/

theorem exitOf_ne_undefined (rs : List Response) : exitOf rs ≠ Exit.undefined := by
  induction rs with
  | nil => simp [exitOf]
  | cons r rs ih =>
    cases r with
    | thrown => simp [exitOf]
    | status st => cases st <;> simp [exitOf, ih]

/-- A loop whose first `N` passes keep an invariant indexed by the pass number
ends, on responses that take it through at most those passes, the way the
responses say, and what its passes emit is determined by the pass number. -/
theorem pollLoop_spec {σ ω τ : Type} (work : σ → Option (σ × ω))
    (P : Nat → σ → Prop) (f : ω → τ) (g : Nat → τ) (N : Nat)
    (hstep : ∀ j s, j < N → P j s →
      ∃ s1 o, work s = some (s1, o) ∧ P (j + 1) s1 ∧ f o = g j)
    (rs : List Response) (j : Nat) (s : σ) (h : P j s) (hN : j + rs.length ≤ N) :
    (pollLoop work s rs).exit = exitOf rs ∧
      (pollLoop work s rs).out.map f
        = (List.range (pollLoop work s rs).out.length).map (fun i => g (j + i)) := by
  induction rs generalizing j s with
  | nil => simp [pollLoop, exitOf]
  | cons r rs ih =>
    have hj : j < N := by
      simp only [List.length_cons] at hN
      omega
    obtain ⟨s1, o, hw, hP, hf⟩ := hstep j s hj h
    have hrec := ih (j + 1) s1 hP (by simp only [List.length_cons] at hN; omega)
    cases r with
    | thrown => simp [pollLoop, exitOf, hw, hf, List.range_succ_eq_map]
    | status st =>
      cases st with
      | ready => simp [pollLoop, exitOf, hw, hf, List.range_succ_eq_map]
      | timeout =>
        simp only [pollLoop, exitOf, hw, List.map_cons, List.length_cons,
          List.range_succ_eq_map, List.map_map, hf]
        refine ⟨hrec.1, ?_⟩
        rw [hrec.2]
        simp [Function.comp_def, Nat.add_assoc, Nat.add_comm 1]
      | deferred =>
        simp only [pollLoop, exitOf, hw, List.map_cons, List.length_cons,
          List.range_succ_eq_map, List.map_map, hf]
        refine ⟨hrec.1, ?_⟩
        rw [hrec.2]
        simp [Function.comp_def, Nat.add_assoc, Nat.add_comm 1]

/-- A loop whose passes keep an invariant indexed by the pass number never
reaches undefined behaviour, and what its passes emit is determined by the
pass number. -/
theorem pollLoop_out {σ ω τ : Type} (work : σ → Option (σ × ω))
    (P : Nat → σ → Prop) (f : ω → τ) (g : Nat → τ)
    (hstep : ∀ j s, P j s → ∃ s1 o, work s = some (s1, o) ∧ P (j + 1) s1 ∧ f o = g j)
    (rs : List Response) (j : Nat) (s : σ) (h : P j s) :
    (pollLoop work s rs).exit ≠ Exit.undefined ∧
      (pollLoop work s rs).out.map f
        = (List.range (pollLoop work s rs).out.length).map (fun i => g (j + i)) := by
  obtain ⟨h1, h2⟩ := pollLoop_spec work P f g (j + rs.length)
    (fun j s _ hP => hstep j s hP) rs j s h (le_refl _)
  exact ⟨by rw [h1]; exact exitOf_ne_undefined rs, h2⟩

/-- A loop that keeps an invariant for `n` passes and whose work is undefined
in the state the invariant gives for pass `n` reaches undefined behaviour when
the responses take it that far. -/
theorem pollLoop_undefined_after {σ ω : Type} (work : σ → Option (σ × ω))
    (P : Nat → σ → Prop) (n : Nat)
    (hstep : ∀ j s, j < n → P j s → ∃ s1 o, work s = some (s1, o) ∧ P (j + 1) s1)
    (hbad : ∀ s, P n s → work s = none)
    (r : Response) (rest : List Response) (k j : Nat) (s : σ)
    (hk : j + k = n) (h : P j s) :
    (pollLoop work s
      (List.replicate k (Response.status future_status.timeout) ++ r :: rest)).exit
      = Exit.undefined := by
  induction k generalizing j s with
  | zero =>
    have hjn : j = n := by omega
    subst hjn
    simp [pollLoop, hbad s h]
  | succ k ih =>
    obtain ⟨s1, o, hw, hP⟩ := hstep j s (by omega) h
    have hrec := ih (j + 1) s1 (by omega) hP
    rw [List.replicate_succ, List.cons_append]
    simp only [pollLoop, hw]
    exact hrec

theorem runBody_loop {σ ω : Type} (work : σ → Option (σ × ω)) (s0 : σ)
    (rs : List Response) (tc : ThreadCountProxy) :
    (runBody work s0 rs tc).loop = pollLoop work s0 rs := by
  unfold runBody
  cases hx : (pollLoop work s0 rs).exit <;> simp [hx]

/-- The registry and the calls a body leaves, for a loop that ends the way
its responses say. -/
theorem runBody_spec {σ ω : Type} (work : σ → Option (σ × ω)) (s0 : σ)
    (rs : List Response) (c : Int)
    (hlo : -2147483648 ≤ c) (hhi : c ≤ 2147483647)
    (h : (pollLoop work s0 rs).exit = exitOf rs) :
    (runBody work s0 rs { count := c }).loop.exit = exitOf rs ∧
      (runBody work s0 rs { count := c }).tc.count
        = (if exitOf rs = Exit.pending then
            (if c = 2147483647 then -2147483648 else c + 1) else c) ∧
      (runBody work s0 rs { count := c }).calls
        = Call.out (if c = 2147483647 then -2147483648 else c + 1)
            :: (if exitOf rs = Exit.pending then []
                else Call.out c :: (if c = 0 then [Call.notify_one] else [])) := by
  have hu := exitOf_ne_undefined rs
  have h1 := toInt32_succ c hlo hhi
  have h2 := toInt32_succ_pred c hlo hhi
  rw [h1] at h2
  refine ⟨by rw [runBody_loop, h], ?_, ?_⟩
  · simp only [runBody, h]
    cases hx : exitOf rs <;>
      simp_all [ThreadCount.ctor, ThreadCount.dtor, ThreadCountProxy.Increment,
        ThreadCountProxy.Decrement]
  · simp only [runBody, h]
    cases hx : exitOf rs <;>
      simp_all [ThreadCount.ctor, ThreadCount.dtor, ThreadCountProxy.Increment,
        ThreadCountProxy.Decrement]

theorem A_exit (rs : List Response) : (pollLoop A.work 0 rs).exit = exitOf rs :=
  (pollLoop_spec A.work (fun _ _ => True) (fun _ => ()) (fun _ => ()) rs.length
    (fun _ s _ _ => ⟨toInt32 (s + 1), s, rfl, trivial, rfl⟩) rs 0 0 trivial
    (by omega)).1

theorem B_exit (rs : List Response) : (pollLoop B.work 0x10000 rs).exit = exitOf rs :=
  (pollLoop_spec B.work (fun _ _ => True) (fun _ => ()) (fun _ => ()) rs.length
    (fun _ s _ _ => ⟨toInt32 (s - 1), s, rfl, trivial, rfl⟩) rs 0 0x10000 trivial
    (by omega)).1

theorem C_work_nonneg (count : Int) (h : 0 ≤ count) :
    ∃ fruit, C.work count = some (toInt32 (count + 1), fruit) := by
  have h4 : Int.tmod count 4 = count % 4 := Int.tmod_eq_emod h (by decide)
  have h0 : 0 ≤ count % 4 := Int.emod_nonneg _ (by decide)
  have h1 : count % 4 < 4 := Int.emod_lt_of_pos _ (by decide)
  have h2 : (count % 4).toNat < 4 := by omega
  unfold C.work
  simp only [h4, h0, if_true]
  generalize (count % 4).toNat = i at h2
  interval_cases i <;> simp [C.pFruit]

theorem C_work_min : C.work (-2147483648) = some (toInt32 (-2147483648 + 1), "apple") := by
  decide

theorem C_work_past_min : C.work (-2147483647) = none := by
  decide

/-- The counter of `C` when pass `j` starts. -/
theorem C_step (j : Nat) (s : Int) (hj : j < 2147483649) (hs : s = toInt32 (j : Int)) :
    ∃ s1 o, C.work s = some (s1, o) ∧ s1 = toInt32 ((j + 1 : Nat) : Int) ∧ () = () := by
  by_cases hlt : j < 2147483648
  · have hsj : s = (j : Int) := by
      rw [hs]
      exact toInt32_of_range _ (by omega) (by omega)
    obtain ⟨fruit, hf⟩ := C_work_nonneg s (by omega)
    refine ⟨_, fruit, hf, ?_, rfl⟩
    rw [hs, toInt32_add]
    simp
  · have hje : j = 2147483648 := by omega
    subst hje
    have hsm : s = -2147483648 := by
      rw [hs]
      decide
    subst hsm
    exact ⟨_, "apple", C_work_min, by decide, rfl⟩

theorem C_exit (rs : List Response) (hrs : rs.length ≤ 2147483649) :
    (pollLoop C.work 0 rs).exit = exitOf rs :=
  (pollLoop_spec C.work (fun j s => s = toInt32 (j : Int)) (fun _ => ()) (fun _ => ())
    2147483649 (fun j s hj hs => C_step j s hj hs) rs 0 0 (by decide)
    (by omega)).1

theorem D_store_some (buf : List Char) (i : Int) (c : Char)
    (h0 : 0 ≤ i) (h1 : i < (buf.length : Int)) :
    D.store buf i c = some (buf.set i.toNat c) := by
  simp [D.store, h0, h1]

theorem D_strcpy_s_length : D.strcpy_s.length = 28 := by decide

theorem D_len : (D.len : Int) - 1 = 26 := by decide

/-- One pass of the loop of `D` from locals that, after the reset branch, hold
a 28-byte buffer and a `tmpLen` between 2 and 26. -/
theorem D_work_eq (s : D.State) (buf : List Char) (t : Int)
    (hbuf : buf.length = 28) (h2 : 2 ≤ t) (h26 : t ≤ 26)
    (hs : (if s.tmpLen ≤ 0 then
            ({ pString := D.strcpy_s, tmpLen := (D.len : Int) - 1 } : D.State)
          else s) = { pString := buf, tmpLen := t }) :
    ∃ b3 : List Char, b3.length = 28 ∧
      D.work s = some ({ pString := b3, tmpLen := t - 3 },
        { text := D.cstr buf, reset := decide (s.tmpLen ≤ 0),
          writes := [t, t - 1, t - 2] }) := by
  refine ⟨((buf.set t.toNat D.nul).set (t - 1).toNat D.nul).set (t - 2).toNat D.nul,
    by simp [hbuf], ?_⟩
  unfold D.work
  simp only [hs]
  rw [D_store_some buf t D.nul (by omega) (by rw [hbuf]; omega)]
  simp only []
  rw [D_store_some _ (t - 1) D.nul (by omega) (by simp [hbuf]; omega)]
  simp only []
  rw [D_store_some _ (t - 2) D.nul (by omega) (by simp [hbuf]; omega)]

theorem D_step (j : Nat) (s : D.State) (h : D_entry j s) :
    ∃ s1 o, D.work s = some (s1, o) ∧ D_entry (j + 1) s1 ∧
      (o.writes, o.reset) = D_pass j := by
  obtain ⟨hlen, ht⟩ := h
  by_cases hneg : s.tmpLen ≤ 0
  · have hj : j ≠ 0 := by
      intro h0
      rw [if_pos h0] at ht
      omega
    rw [if_neg hj] at ht
    have hmod : j % 9 = 0 := by omega
    obtain ⟨b3, hb3, hw⟩ := D_work_eq s D.strcpy_s 26 D_strcpy_s_length (by decide)
      (by decide) (by rw [if_pos hneg, D_len])
    refine ⟨_, _, hw, ⟨hb3, ?_⟩, ?_⟩
    · simp only [Nat.add_sub_cancel, Nat.succ_ne_zero, if_false]
      omega
    · simp only [D_pass, hmod, hneg, decide_True]
      have : 0 < j := Nat.pos_of_ne_zero hj
      simp [this]
  · have hpos : 2 ≤ s.tmpLen ∧ s.tmpLen ≤ 26 ∧ s.tmpLen = 26 - 3 * ((j % 9 : Nat) : Int) := by
      by_cases h0 : j = 0
      · subst h0
        simp at ht
        omega
      · rw [if_neg h0] at ht
        omega
    obtain ⟨b3, hb3, hw⟩ := D_work_eq s s.pString s.tmpLen hlen hpos.1 hpos.2.1
      (by rw [if_neg hneg])
    refine ⟨_, _, hw, ⟨hb3, ?_⟩, ?_⟩
    · simp only [Nat.add_sub_cancel, Nat.succ_ne_zero, if_false]
      omega
    · have hmod : ¬ (0 < j ∧ j % 9 = 0) := by
        intro hc
        omega
      simp only [D_pass, hneg, hmod, decide_False, Prod.mk.injEq, and_true]
      rw [hpos.2.2]
      simp
      omega

theorem D_start_entry : D_entry 0 D.start :=
  ⟨D_strcpy_s_length, by simp [D.start, D_len]⟩

theorem D_defined (rs : List Response) :
    (pollLoop D.work D.start rs).exit ≠ Exit.undefined :=
  (pollLoop_out D.work D_entry (fun o => (o.writes, o.reset)) D_pass D_step rs 0
    D.start D_start_entry).1

theorem D_exit (rs : List Response) : (pollLoop D.work D.start rs).exit = exitOf rs :=
  (pollLoop_spec D.work D_entry (fun o => (o.writes, o.reset)) D_pass rs.length
    (fun j s _ hs => D_step j s hs) rs 0 D.start D_start_entry (by omega)).1

/-- With only `timeout` responses a loop whose passes keep an invariant is
still running after as many passes as there were responses. -/
theorem pollLoop_timeouts {σ ω : Type} (work : σ → Option (σ × ω))
    (P : Nat → σ → Prop)
    (hstep : ∀ j s, P j s → ∃ s1 o, work s = some (s1, o) ∧ P (j + 1) s1)
    (n j : Nat) (s : σ) (h : P j s) :
    (pollLoop work s (List.replicate n (Response.status future_status.timeout))).exit
        = Exit.pending ∧
      (pollLoop work s
        (List.replicate n (Response.status future_status.timeout))).out.length = n ∧
      (pollLoop work s
        (List.replicate n (Response.status future_status.timeout))).polls = n := by
  induction n generalizing j s with
  | zero => simp [pollLoop]
  | succ n ih =>
    obtain ⟨s1, o, hw, hP⟩ := hstep j s h
    obtain ⟨h1, h2, h3⟩ := ih (j + 1) s1 hP
    simp [List.replicate_succ, pollLoop, hw, h1, h2, h3]

/-- A pass whose `wait_for` does not report `ready` is followed by the rest of
the loop. -/
theorem pollLoop_continue {σ ω : Type} (work : σ → Option (σ × ω)) (s s1 : σ) (o : ω)
    (st : future_status) (rs : List Response)
    (hw : work s = some (s1, o)) (hst : st ≠ future_status.ready) :
    pollLoop work s (Response.status st :: rs)
      = { out := o :: (pollLoop work s1 rs).out,
          polls := (pollLoop work s1 rs).polls + 1,
          exit := (pollLoop work s1 rs).exit } := by
  cases st with
  | ready => exact absurd rfl hst
  | timeout => simp [pollLoop, hw]
  | deferred => simp [pollLoop, hw]

/-- The loop of `A` started with `count` holding `x` as an `int`, on responses
whose first `ready` comes after `pre`. -/
theorem A_loop_eq (pre : List future_status) (rest : List Response) (x : Int)
    (h : ∀ st ∈ pre, st ≠ future_status.ready) :
    (pollLoop A.work (toInt32 x)
        (pre.map Response.status ++ Response.status future_status.ready :: rest)).out
        = (List.range (pre.length + 1)).map (fun (i : Nat) => toInt32 (x + (i : Int))) ∧
      (pollLoop A.work (toInt32 x)
        (pre.map Response.status ++ Response.status future_status.ready :: rest)).polls
        = pre.length + 1 ∧
      (pollLoop A.work (toInt32 x)
        (pre.map Response.status ++ Response.status future_status.ready :: rest)).exit
        = Exit.broke := by
  induction pre generalizing x with
  | nil => simp [pollLoop, A.work, List.range_succ_eq_map]
  | cons st pre ih =>
    have hst : st ≠ future_status.ready := h st (List.mem_cons_self _ _)
    obtain ⟨h1, h2, h3⟩ := ih (x + 1) (fun y hy => h y (List.mem_cons_of_mem _ hy))
    have hout : (List.range (pre.length + 1 + 1)).map
          (fun (i : Nat) => toInt32 (x + (i : Int)))
        = toInt32 x :: (List.range (pre.length + 1)).map
            (fun (i : Nat) => toInt32 (x + 1 + (i : Int))) := by
      rw [List.range_succ_eq_map (pre.length + 1)]
      simp only [List.map_cons, List.map_map, Function.comp_def]
      simp [Int.add_assoc, Int.add_comm 1]
    have hw : A.work (toInt32 x) = some (toInt32 (x + 1), toInt32 x) := by
      simp only [A.work, toInt32_add]
    rw [List.map_cons, List.cons_append,
      pollLoop_continue A.work (toInt32 x) (toInt32 (x + 1)) (toInt32 x) st _ hw hst]
    refine ⟨?_, ?_, h3⟩
    · show toInt32 x :: _ = List.map _ (List.range (pre.length + 1 + 1))
      rw [h1, hout]
    · show _ + 1 = pre.length + 1 + 1
      rw [h2]

theorem A_loop_from_zero (pre : List future_status) (rest : List Response)
    (tc : ThreadCountProxy) (h : ∀ st ∈ pre, st ≠ future_status.ready) :
    (A.operator_call
        (pre.map Response.status ++ Response.status future_status.ready :: rest)
        tc).loop.out
        = (List.range (pre.length + 1)).map (fun (i : Nat) => toInt32 (i : Int)) ∧
      (A.operator_call
        (pre.map Response.status ++ Response.status future_status.ready :: rest)
        tc).loop.polls = pre.length + 1 ∧
      (A.operator_call
        (pre.map Response.status ++ Response.status future_status.ready :: rest)
        tc).loop.exit = Exit.broke := by
  obtain ⟨h1, h2, h3⟩ := A_loop_eq pre rest 0 h
  have h0 : toInt32 0 = 0 := by decide
  rw [h0] at h1 h2 h3
  have hloop : (A.operator_call
      (pre.map Response.status ++ Response.status future_status.ready :: rest) tc).loop
      = pollLoop A.work 0
          (pre.map Response.status ++ Response.status future_status.ready :: rest) :=
    runBody_loop A.work 0 _ tc
  rw [hloop]
  refine ⟨?_, h2, h3⟩
  rw [h1]
  exact List.map_congr_left (fun i _ => by rw [Int.zero_add])

theorem replicate_timeout_not_ready (n : Nat) :
    ∀ st ∈ List.replicate n future_status.timeout, st ≠ future_status.ready := by
  intro st hst
  rw [List.eq_of_mem_replicate hst]
  decide

/-! ## Claims about the worker bodies -/

/-- C6 (as stated, refuted): with the starting count 2147483647 the count
while the body of `A` runs is -2147483648, not the starting count plus one;
and the body of `C`, given 2147483649 responses `timeout` and then `ready`,
indexes `pFruit` at a negative index in its last pass, so that nothing is
guaranteed for the loop or the guard any more. -/
theorem C6_count_wraps_at_int_max :
    (A.operator_call [] { count := 2147483647 }).loop.exit = Exit.pending ∧
      (A.operator_call [] { count := 2147483647 }).tc.count = -2147483648 ∧
      (C.operator_call
          (List.replicate 2147483649 (Response.status future_status.timeout)
            ++ [Response.status future_status.ready])
          { count := 0 }).loop.exit = Exit.undefined := by
  refine ⟨by decide, by decide, ?_⟩
  rw [C.operator_call, runBody_loop]
  exact pollLoop_undefined_after C.work (fun j s => s = toInt32 (j : Int)) 2147483649
    (fun j s hj hs => by
      obtain ⟨s1, o, hw, hs1, _⟩ := C_step j s hj hs
      exact ⟨s1, o, hw, hs1⟩)
    (fun s hs => by
      have hsm : s = -2147483647 := by
        rw [hs]
        decide
      rw [hsm]
      exact C_work_past_min)
    _ _ 2147483649 0 0 (by omega) (by decide)

/-- C6 (amended): for each of the bodies `A`, `B`, `C`, `D`, every starting
count `c` in the range of `int` and every sequence of responses (for `C`: of
at most 2147483649 responses): the body ends the way the responses say, still
running, left by `break` at the first `ready`, or left by an exception; the
guard has called `Increment` once, and once the body is left also `Decrement`
once and nothing else; the count is `c + 1` while the body runs, or
-2147483648 when `c` is 2147483647, and is `c` again after the body is
left. -/
theorem C6_guard_registers_and_deregisters (rs : List Response) (c : Int)
    (hlo : -2147483648 ≤ c) (hhi : c ≤ 2147483647) :
    ((A.operator_call rs { count := c }).loop.exit = exitOf rs ∧
        (A.operator_call rs { count := c }).tc.count
          = (if exitOf rs = Exit.pending then
              (if c = 2147483647 then -2147483648 else c + 1) else c) ∧
        (A.operator_call rs { count := c }).calls
          = Call.out (if c = 2147483647 then -2147483648 else c + 1)
              :: (if exitOf rs = Exit.pending then []
                  else Call.out c :: (if c = 0 then [Call.notify_one] else []))) ∧
      ((B.operator_call rs { count := c }).loop.exit = exitOf rs ∧
        (B.operator_call rs { count := c }).tc.count
          = (if exitOf rs = Exit.pending then
              (if c = 2147483647 then -2147483648 else c + 1) else c) ∧
        (B.operator_call rs { count := c }).calls
          = Call.out (if c = 2147483647 then -2147483648 else c + 1)
              :: (if exitOf rs = Exit.pending then []
                  else Call.out c :: (if c = 0 then [Call.notify_one] else []))) ∧
      (rs.length ≤ 2147483649 →
        (C.operator_call rs { count := c }).loop.exit = exitOf rs ∧
        (C.operator_call rs { count := c }).tc.count
          = (if exitOf rs = Exit.pending then
              (if c = 2147483647 then -2147483648 else c + 1) else c) ∧
        (C.operator_call rs { count := c }).calls
          = Call.out (if c = 2147483647 then -2147483648 else c + 1)
              :: (if exitOf rs = Exit.pending then []
                  else Call.out c :: (if c = 0 then [Call.notify_one] else []))) ∧
      ((D.operator_call rs { count := c }).loop.exit = exitOf rs ∧
        (D.operator_call rs { count := c }).tc.count
          = (if exitOf rs = Exit.pending then
              (if c = 2147483647 then -2147483648 else c + 1) else c) ∧
        (D.operator_call rs { count := c }).calls
          = Call.out (if c = 2147483647 then -2147483648 else c + 1)
              :: (if exitOf rs = Exit.pending then []
                  else Call.out c :: (if c = 0 then [Call.notify_one] else []))) :=
  ⟨runBody_spec A.work 0 rs c hlo hhi (A_exit rs),
    runBody_spec B.work 0x10000 rs c hlo hhi (B_exit rs),
    fun hrs => runBody_spec C.work 0 rs c hlo hhi (C_exit rs hrs),
    runBody_spec D.work D.start rs c hlo hhi (D_exit rs)⟩

/-- C6 at one `timeout` response followed by an exception, from count 0: the
body is left by the exception, the guard has called `Increment` and
`Decrement` once each, and the count is 0 again. -/
theorem C6_guard_registers_and_deregisters_witness :
    (-2147483648 : Int) ≤ 0 ∧ (0 : Int) ≤ 2147483647 ∧
      ((A.operator_call [Response.status future_status.timeout, Response.thrown]
          { count := 0 }).loop.exit = Exit.threw ∧
        (A.operator_call [Response.status future_status.timeout, Response.thrown]
          { count := 0 }).tc.count = 0 ∧
        (A.operator_call [Response.status future_status.timeout, Response.thrown]
          { count := 0 }).calls = [Call.out 1, Call.out 0, Call.notify_one]) ∧
      ((C.operator_call [Response.status future_status.timeout, Response.thrown]
          { count := 0 }).loop.exit = Exit.threw ∧
        (C.operator_call [Response.status future_status.timeout, Response.thrown]
          { count := 0 }).tc.count = 0 ∧
        (C.operator_call [Response.status future_status.timeout, Response.thrown]
          { count := 0 }).calls = [Call.out 1, Call.out 0, Call.notify_one]) :=
  ⟨by decide, by decide,
    ⟨(C6_guard_registers_and_deregisters
        [Response.status future_status.timeout, Response.thrown] 0
        (by decide) (by decide)).1.1.trans (by decide),
      (C6_guard_registers_and_deregisters
        [Response.status future_status.timeout, Response.thrown] 0
        (by decide) (by decide)).1.2.1.trans (by decide),
      (C6_guard_registers_and_deregisters
        [Response.status future_status.timeout, Response.thrown] 0
        (by decide) (by decide)).1.2.2.trans (by decide)⟩,
    ⟨((C6_guard_registers_and_deregisters
        [Response.status future_status.timeout, Response.thrown] 0
        (by decide) (by decide)).2.2.1 (by decide)).1.trans (by decide),
      ((C6_guard_registers_and_deregisters
        [Response.status future_status.timeout, Response.thrown] 0
        (by decide) (by decide)).2.2.1 (by decide)).2.1.trans (by decide),
      ((C6_guard_registers_and_deregisters
        [Response.status future_status.timeout, Response.thrown] 0
        (by decide) (by decide)).2.2.1 (by decide)).2.2.trans (by decide)⟩⟩

/-- C9 (as stated, refuted): when the first `ready` response comes after
2147483648 responses `timeout`, the last value the body of `A` emits is
-2147483648, so what it emits is not the values 0, 1, ..., 2147483648. -/
theorem C9_A_emits_negative_after_2147483648_passes :
    (A.operator_call
        ((List.replicate 2147483648 future_status.timeout).map Response.status
          ++ Response.status future_status.ready :: [])
        { count := 0 }).loop.out[2147483648]? = some (-2147483648) ∧
      (A.operator_call
        ((List.replicate 2147483648 future_status.timeout).map Response.status
          ++ Response.status future_status.ready :: [])
        { count := 0 }).loop.out
        ≠ (List.range ((List.replicate 2147483648 future_status.timeout).length + 1)).map
            Int.ofNat := by
  obtain ⟨h1, _, _⟩ := A_loop_from_zero (List.replicate 2147483648 future_status.timeout)
    [] { count := 0 } (replicate_timeout_not_ready 2147483648)
  rw [h1, List.length_replicate]
  have hlt : 2147483648 < 2147483648 + 1 := Nat.lt_succ_self _
  have hw : toInt32 ((2147483648 : Nat) : Int) = -2147483648 := by decide
  constructor
  · rw [List.getElem?_map, List.getElem?_range hlt, Option.map_some', hw]
  · intro heq
    have hmem : 2147483648 ∈ List.range (2147483648 + 1) := List.mem_range.mpr hlt
    have h := List.map_inj_left.mp heq 2147483648 hmem
    rw [hw] at h
    exact absurd h (by decide)

/-- C9 (amended): when the first `ready` response is the one after `pre`, and
`pre` has fewer than 2147483648 responses, the body of `A` emits exactly the
values `0, 1, ..., pre.length` in that order, makes exactly `pre.length + 1`
calls of `wait_for`, and leaves the loop by `break`, whatever responses would
follow. -/
theorem C9_A_emits_until_first_ready (pre : List future_status)
    (rest : List Response) (tc : ThreadCountProxy)
    (h : ∀ st ∈ pre, st ≠ future_status.ready) (hk : pre.length < 2147483648) :
    (A.operator_call
        (pre.map Response.status ++ Response.status future_status.ready :: rest)
        tc).loop.out
        = (List.range (pre.length + 1)).map Int.ofNat ∧
      (A.operator_call
        (pre.map Response.status ++ Response.status future_status.ready :: rest)
        tc).loop.polls = pre.length + 1 ∧
      (A.operator_call
        (pre.map Response.status ++ Response.status future_status.ready :: rest)
        tc).loop.exit = Exit.broke := by
  obtain ⟨h1, h2, h3⟩ := A_loop_from_zero pre rest tc h
  refine ⟨?_, h2, h3⟩
  rw [h1]
  refine List.map_congr_left (fun i hi => ?_)
  have hi2 : i < pre.length + 1 := List.mem_range.mp hi
  exact toInt32_of_range _ (by omega) (by omega)

/-- C9 at two responses that are not `ready` followed by `ready`: the values
0, 1, 2 and three polls. -/
theorem C9_A_emits_until_first_ready_witness :
    (∀ st ∈ [future_status.timeout, future_status.deferred],
        st ≠ future_status.ready) ∧
      [future_status.timeout, future_status.deferred].length < 2147483648 ∧
      ((A.operator_call
          ([future_status.timeout, future_status.deferred].map Response.status
            ++ Response.status future_status.ready :: [Response.status future_status.timeout])
          { count := 0 }).loop.out
          = (List.range 3).map Int.ofNat ∧
        (A.operator_call
          ([future_status.timeout, future_status.deferred].map Response.status
            ++ Response.status future_status.ready :: [Response.status future_status.timeout])
          { count := 0 }).loop.polls = 3 ∧
        (A.operator_call
          ([future_status.timeout, future_status.deferred].map Response.status
            ++ Response.status future_status.ready :: [Response.status future_status.timeout])
          { count := 0 }).loop.exit = Exit.broke) :=
  ⟨by decide, by decide,
    C9_A_emits_until_first_ready [future_status.timeout, future_status.deferred]
      [Response.status future_status.timeout] { count := 0 } (by decide) (by decide)⟩

/-- C10: in every run of the loop of `D` no write leaves the buffer; pass `j`
(counted from 0) writes at `26 - 3 * (j % 9)` and the two indices below it,
all between 0 and 26, and takes the reset branch exactly when `j` is a
positive multiple of 9; after `n` responses `timeout` the loop has made `n`
passes and is still running. -/
theorem C10_D_writes_stay_in_buffer (rs : List Response) (n : Nat)
    (tc : ThreadCountProxy) :
    (D.operator_call rs tc).loop.exit ≠ Exit.undefined ∧
      (D.operator_call rs tc).loop.out.map (fun p => (p.writes, p.reset))
        = (List.range (D.operator_call rs tc).loop.out.length).map
            (fun j => ([26 - 3 * ((j % 9 : Nat) : Int), 25 - 3 * ((j % 9 : Nat) : Int),
                24 - 3 * ((j % 9 : Nat) : Int)], decide (0 < j ∧ j % 9 = 0))) ∧
      (D.operator_call rs tc).loop.out.all
          (fun p => p.writes.all (fun i => decide (0 ≤ i ∧ i ≤ 26))) = true ∧
      (D.operator_call (List.replicate n (Response.status future_status.timeout))
          tc).loop.exit = Exit.pending ∧
      (D.operator_call (List.replicate n (Response.status future_status.timeout))
          tc).loop.out.length = n := by
  have hloop : ∀ rs : List Response,
      (D.operator_call rs tc).loop = pollLoop D.work D.start rs := fun rs =>
    runBody_loop D.work D.start rs tc
  obtain ⟨hdef, hout⟩ := pollLoop_out D.work D_entry (fun o => (o.writes, o.reset))
    D_pass D_step rs 0 D.start D_start_entry
  obtain ⟨hpend, hlen, _⟩ := pollLoop_timeouts D.work D_entry
    (fun j s hs => by
      obtain ⟨s1, o, hw, hP, _⟩ := D_step j s hs
      exact ⟨s1, o, hw, hP⟩) n 0 D.start D_start_entry
  rw [hloop, hloop]
  refine ⟨hdef, ?_, ?_, hpend, hlen⟩
  · rw [hout]
    exact List.map_congr_left (fun j _ => by simp [D_pass])
  · rw [List.all_eq_true]
    intro p hp
    have hmem : (p.writes, p.reset)
        ∈ (pollLoop D.work D.start rs).out.map (fun o => (o.writes, o.reset)) :=
      List.mem_map_of_mem _ hp
    rw [hout, List.mem_map] at hmem
    obtain ⟨j, _, hj⟩ := hmem
    have hw : p.writes = (D_pass (0 + j)).1 := by rw [hj]
    rw [hw]
    simp only [D_pass, List.all_cons, List.all_nil, Bool.and_true, Bool.and_eq_true,
      decide_eq_true_eq]
    omega

/-! ## The threads together -/

theorem deliver_increment (ctl : CtlPc) (tc : ThreadCountProxy) :
    deliver ctl (ThreadCountProxy.Increment tc).2 = ctl := by
  simp [ThreadCountProxy.Increment, deliver]

theorem deliver_decrement (ctl : CtlPc) (tc : ThreadCountProxy) :
    deliver ctl (ThreadCountProxy.Decrement tc).2
      = if toInt32 (tc.count - 1) = 0 ∧ ctl = CtlPc.blocked then CtlPc.released
        else ctl := by
  by_cases h : toInt32 (tc.count - 1) = 0 <;> by_cases hc : ctl = CtlPc.blocked <;>
    simp [ThreadCountProxy.Decrement, deliver, h, hc]

theorem liveCount_set (ws : List WorkerPc) (i : Nat) (a b : WorkerPc)
    (h : ws.get? i = some a) :
    ((liveCount (ws.set i b) : Nat) : Int)
      = (liveCount ws : Int) - (if a.live then 1 else 0) + (if b.live then 1 else 0) := by
  induction ws generalizing i with
  | nil => simp at h
  | cons w ws ih =>
    cases i with
    | zero =>
      simp only [List.get?_cons_zero, Option.some.injEq] at h
      subst h
      simp only [liveCount, List.set_cons_zero, List.countP_cons]
      split <;> split <;> simp
    | succ i =>
      simp only [List.get?_cons_succ] at h
      have := ih i h
      simp only [liveCount, List.set_cons_succ, List.countP_cons] at this ⊢
      push_cast
      omega

theorem CountInv_init (n : Nat) : CountInv (Sys.init n) := by
  have h0 : toInt32 0 = 0 := by decide
  simp [CountInv, Sys.init, ThreadCountProxy.privGetInstance, liveCount,
    List.countP_replicate, WorkerPc.live, h0]

theorem CountInv_step (s : Sys) (e : Event) (h : CountInv s) : CountInv (Sys.step s e) := by
  unfold CountInv at h ⊢
  cases e with
  | start i =>
    simp only [Sys.step]
    split
    · next hi =>
      simp only [ThreadCount.ctor, ThreadCountProxy.Increment]
      rw [liveCount_set _ _ _ _ hi, h, toInt32_add]
      simp [WorkerPc.live]
    · exact h
  | poll i =>
    simp only [Sys.step]
    split
    · next hi =>
      split
      · simp only []
        rw [liveCount_set _ _ _ _ hi, h]
        simp [WorkerPc.live]
      · exact h
    · exact h
  | leave i =>
    simp only [Sys.step]
    split
    · next hi =>
      simp only [ThreadCount.dtor, ThreadCountProxy.Decrement]
      rw [liveCount_set _ _ _ _ hi, h]
      have hl : (if WorkerPc.leaving.live = true then (1 : Int) else 0) = 1 := rfl
      have he : (if WorkerPc.exited.live = true then (1 : Int) else 0) = 0 := rfl
      rw [hl, he]
      generalize (liveCount s.workers : Int) = l
      unfold toInt32
      omega
    · exact h
  | signal =>
    simp only [Sys.step]
    split
    · split <;> exact h
    · exact h
  | wait =>
    simp only [Sys.step]
    split <;> exact h

theorem CountInv_run (evs : List Event) (s : Sys) (h : CountInv s) :
    CountInv (Sys.run s evs) := by
  induction evs generalizing s with
  | nil => exact h
  | cons e evs ih => exact ih (Sys.step s e) (CountInv_step s e h)

theorem workers_length_step (s : Sys) (e : Event) :
    (Sys.step s e).workers.length = s.workers.length := by
  cases e with
  | start i =>
    simp only [Sys.step]
    split <;> simp
  | poll i =>
    simp only [Sys.step]
    split
    · split <;> simp
    · rfl
  | leave i =>
    simp only [Sys.step]
    split <;> simp
  | signal =>
    simp only [Sys.step]
    split
    · split <;> rfl
    · rfl
  | wait =>
    simp only [Sys.step]
    split <;> rfl

theorem workers_length_run (evs : List Event) (s : Sys) :
    (Sys.run s evs).workers.length = s.workers.length := by
  induction evs generalizing s with
  | nil => rfl
  | cons e evs ih =>
    show (Sys.run (Sys.step s e) evs).workers.length = _
    rw [ih, workers_length_step]

/-- A step that wakes the blocked controller leaves the count at zero. -/
theorem released_count_zero (s : Sys) (e : Event) (hb : s.ctl = CtlPc.blocked)
    (hr : (Sys.step s e).ctl = CtlPc.released) : (Sys.step s e).tc.count = 0 := by
  cases e with
  | start i =>
    simp only [Sys.step] at hr
    split at hr
    · simp [ThreadCount.ctor, deliver_increment, hb] at hr
    · simp [hb] at hr
  | poll i =>
    simp only [Sys.step] at hr
    split at hr
    · split at hr <;> simp [hb] at hr
    · simp [hb] at hr
  | leave i =>
    simp only [Sys.step] at hr ⊢
    split at hr
    · next hi =>
      rw [if_pos hi]
      simp only [ThreadCount.dtor, deliver_decrement, hb, and_true] at hr
      by_cases h0 : toInt32 (s.tc.count - 1) = 0
      · simpa [ThreadCount.dtor, ThreadCountProxy.Decrement] using h0
      · simp [h0] at hr
    · simp [hb] at hr
  | signal =>
    simp only [Sys.step] at hr
    rw [if_neg (by simp [hb])] at hr
    simp [hb] at hr
  | wait =>
    simp only [Sys.step] at hr
    rw [if_neg (by simp [hb])] at hr
    simp [hb] at hr

/-- Once the controller is blocked and every worker has exited, no event
changes the state. -/
theorem step_stuck (s : Sys) (e : Event) (hb : s.ctl = CtlPc.blocked)
    (hw : ∀ w ∈ s.workers, w = WorkerPc.exited) : Sys.step s e = s := by
  have hget : ∀ i w, s.workers.get? i = some w → w = WorkerPc.exited := fun i w h =>
    hw w (List.get?_mem h)
  cases e with
  | start i =>
    simp only [Sys.step]
    rw [if_neg (fun h => by simpa using hget i _ h)]
  | poll i =>
    simp only [Sys.step]
    rw [if_neg (fun h => by simpa using hget i _ h)]
  | leave i =>
    simp only [Sys.step]
    rw [if_neg (fun h => by simpa using hget i _ h)]
  | signal =>
    simp only [Sys.step]
    rw [if_neg (by simp [hb])]
  | wait =>
    simp only [Sys.step]
    rw [if_neg (by simp [hb])]

theorem run_stuck (evs : List Event) (s : Sys) (hb : s.ctl = CtlPc.blocked)
    (hw : ∀ w ∈ s.workers, w = WorkerPc.exited) : Sys.run s evs = s := by
  induction evs with
  | nil => rfl
  | cons e evs ih =>
    show Sys.run (Sys.step s e) evs = s
    rw [step_stuck s e hb hw]
    exact ih

theorem run_append (s : Sys) (evs1 evs2 : List Event) :
    Sys.run s (evs1 ++ evs2) = Sys.run (Sys.run s evs1) evs2 := by
  simp [Sys.run, List.foldl_append]

/-! ## Claims about the shutdown -/

/-- The schedule of the four workers of `main` in which every worker
registers, the controller signals, every worker observes the signal and
deregisters, and the controller then calls `WaitUntilThreadsDone`. -/
theorem schedule_all_exit_then_wait :
    Sys.run (Sys.init 4)
        [Event.start 0, Event.start 1, Event.start 2, Event.start 3, Event.signal,
          Event.poll 0, Event.leave 0, Event.poll 1, Event.leave 1,
          Event.poll 2, Event.leave 2, Event.poll 3, Event.leave 3, Event.wait]
      = { sr := { ready := true }, tc := { count := 0 }, ctl := CtlPc.blocked,
          workers := List.replicate 4 WorkerPc.exited } := by
  decide

/-- The same four workers when the controller is already blocked in
`WaitUntilThreadsDone` before the last worker deregisters: the last
`Decrement` wakes it. -/
theorem schedule_wait_then_last_exit :
    Sys.run (Sys.init 4)
        [Event.start 0, Event.start 1, Event.start 2, Event.start 3, Event.signal,
          Event.poll 0, Event.leave 0, Event.poll 1, Event.leave 1,
          Event.poll 2, Event.leave 2, Event.wait, Event.poll 3, Event.leave 3]
      = { sr := { ready := true }, tc := { count := 0 }, ctl := CtlPc.released,
          workers := List.replicate 4 WorkerPc.exited } := by
  decide

/-- C1 (the code at the failing inputs): with no worker at all, after
`set_value()` and the call of `WaitUntilThreadsDone` the controller is blocked
with count 0 and stays blocked under every continuation; and with the four
workers of `main`, all registered before the signal, once every worker has
observed the signal and deregistered, the controller that then calls
`WaitUntilThreadsDone` is blocked with count 0 and stays blocked under every
continuation. -/
theorem C1_wait_after_last_deregistration_blocks :
    (∀ evs : List Event,
        Sys.run (Sys.init 0) ([Event.signal, Event.wait] ++ evs)
          = { sr := { ready := true }, tc := { count := 0 }, ctl := CtlPc.blocked,
              workers := [] }) ∧
      (∀ evs : List Event,
        Sys.run (Sys.init 4)
            ([Event.start 0, Event.start 1, Event.start 2, Event.start 3, Event.signal,
                Event.poll 0, Event.leave 0, Event.poll 1, Event.leave 1,
                Event.poll 2, Event.leave 2, Event.poll 3, Event.leave 3, Event.wait]
              ++ evs)
          = { sr := { ready := true }, tc := { count := 0 }, ctl := CtlPc.blocked,
              workers := List.replicate 4 WorkerPc.exited }) := by
  constructor
  · intro evs
    rw [run_append]
    have h0 : Sys.run (Sys.init 0) [Event.signal, Event.wait]
        = { sr := { ready := true }, tc := { count := 0 }, ctl := CtlPc.blocked,
            workers := [] } := by decide
    rw [h0]
    exact run_stuck evs _ rfl (by simp)
  · intro evs
    rw [run_append, schedule_all_exit_then_wait]
    exact run_stuck evs _ rfl (by simp)

/-- C8: from the state `main` sets up with any number of workers and after
any schedule, a step that takes the controller from blocked in
`WaitUntilThreadsDone` to released ends in a state whose count is zero and,
the number of worker threads being below 4294967296 so that the 32-bit count
cannot have gone once around, in which no worker is registered and not yet
deregistered. -/
theorem C8_released_only_at_count_zero (n : Nat) (evs : List Event) (e : Event)
    (hb : (Sys.run (Sys.init n) evs).ctl = CtlPc.blocked)
    (hr : (Sys.step (Sys.run (Sys.init n) evs) e).ctl = CtlPc.released) :
    (Sys.step (Sys.run (Sys.init n) evs) e).tc.count = 0 ∧
      (n < 4294967296 →
        (Sys.step (Sys.run (Sys.init n) evs) e).workers.all (fun w => !w.live) = true) := by
  have h0 := released_count_zero _ e hb hr
  have hinv := CountInv_step _ e (CountInv_run evs _ (CountInv_init n))
  refine ⟨h0, fun hn => ?_⟩
  unfold CountInv at hinv
  rw [h0] at hinv
  have hlen : (Sys.step (Sys.run (Sys.init n) evs) e).workers.length = n := by
    rw [workers_length_step, workers_length_run]
    simp [Sys.init]
  have hle : liveCount (Sys.step (Sys.run (Sys.init n) evs) e).workers
      ≤ (Sys.step (Sys.run (Sys.init n) evs) e).workers.length := List.countP_le_length _
  have hz : liveCount (Sys.step (Sys.run (Sys.init n) evs) e).workers = 0 := by
    generalize liveCount (Sys.step (Sys.run (Sys.init n) evs) e).workers = l at hinv hle
    unfold toInt32 at hinv
    omega
  rw [liveCount, List.countP_eq_zero] at hz
  rw [List.all_eq_true]
  intro w hw
  simpa using hz w hw

/-- C8 with two workers: the controller blocks while worker 1 is still
registered, and is released by the step in which worker 1 deregisters. -/
theorem C8_released_only_at_count_zero_witness :
    (Sys.run (Sys.init 2)
          [Event.start 0, Event.start 1, Event.signal, Event.poll 0, Event.leave 0,
            Event.wait, Event.poll 1]).ctl = CtlPc.blocked ∧
      (Sys.step (Sys.run (Sys.init 2)
          [Event.start 0, Event.start 1, Event.signal, Event.poll 0, Event.leave 0,
            Event.wait, Event.poll 1]) (Event.leave 1)).ctl = CtlPc.released ∧
      ((Sys.step (Sys.run (Sys.init 2)
          [Event.start 0, Event.start 1, Event.signal, Event.poll 0, Event.leave 0,
            Event.wait, Event.poll 1]) (Event.leave 1)).tc.count = 0 ∧
        (Sys.step (Sys.run (Sys.init 2)
          [Event.start 0, Event.start 1, Event.signal, Event.poll 0, Event.leave 0,
            Event.wait, Event.poll 1]) (Event.leave 1)).workers.all
          (fun w => !w.live) = true) :=
  ⟨by decide, by decide,
    (C8_released_only_at_count_zero 2
      [Event.start 0, Event.start 1, Event.signal, Event.poll 0, Event.leave 0,
        Event.wait, Event.poll 1] (Event.leave 1) (by decide) (by decide)).1,
    (C8_released_only_at_count_zero 2
      [Event.start 0, Event.start 1, Event.signal, Event.poll 0, Event.leave 0,
        Event.wait, Event.poll 1] (Event.leave 1) (by decide) (by decide)).2 (by decide)⟩

/-! ## Claims about signalling twice -/

end ThreadSync
